import Mathlib

/-! Verification of the authorization and credential lifecycle subsystem of the
google-workspace-mcp server (`src/auth.ts`), shallowly embedded in Lean.

The embedding models:
* the JavaScript JSON codec (`JSON.stringify(v, null, 2)` / `JSON.parse`) on a
  JSON value type whose numbers are integers (every credential-record field is
  a string or an integer millisecond timestamp);
* `loadTokens` / `saveTokens` over an explicit token-file state;
* the `tokens`-event merge handler registered by `getAuthenticatedClient`;
* the `/callback` request handler installed by `startAuthFlow`, with the token
  exchange and the credential save as oracles;
* the listener / idle-timer lifecycle of `startAuthFlow` as a trace machine.
-/

namespace WorkspaceMcp

/-- JSON values as used by `auth.ts`: object fields keep insertion order, and
numbers are modelled as integers (credential records hold strings and an
integer `expiry_date` timestamp). -/
inductive Json where
  | null : Json
  | bool (b : Bool) : Json
  | num (n : Int) : Json
  | str (s : String) : Json
  | arr (elems : List Json) : Json
  | obj (fields : List (String × Json)) : Json
deriving Repr

/-- Lower-case hexadecimal digit for a value below 16 (as Node renders hex). -/
def hexDigitChar (d : Nat) : Char :=
  if d < 10 then Char.ofNat (48 + d) else Char.ofNat (87 + d)

/-- Escaping of one character inside a JSON string literal, exactly the set
`JSON.stringify` escapes: quote, backslash, and control characters below
U+0020 (shorthand escapes for \n \r \t \b \f, `\u00XX` otherwise). -/
def escChar (c : Char) : List Char :=
  if c = '"' then ['\\', '"']
  else if c = '\\' then ['\\', '\\']
  else if c = '\n' then ['\\', 'n']
  else if c = '\r' then ['\\', 'r']
  else if c = '\t' then ['\\', 't']
  else if c = '\x08' then ['\\', 'b']
  else if c = '\x0c' then ['\\', 'f']
  else if c.toNat < 32 then
    ['\\', 'u', '0', '0', hexDigitChar (c.toNat / 16), hexDigitChar (c.toNat % 16)]
  else [c]

/-- Escaped body of a JSON string literal. -/
def escString (cs : List Char) : List Char := (cs.map escChar).flatten

/-- Decimal digits of a natural number, most significant first. -/
def natDigitsChars (n : Nat) : List Char :=
  (Nat.digits 10 n).reverse.map fun d => Char.ofNat (48 + d)

/-- Decimal rendering of a natural number (JavaScript prints `0` for zero). -/
def printNat (n : Nat) : List Char :=
  if n = 0 then ['0'] else natDigitsChars n

/-- Decimal rendering of an integer. -/
def printInt (n : Int) : List Char :=
  if n < 0 then '-' :: printNat n.natAbs else printNat n.toNat

/-- Newline followed by `n` spaces: the separator `JSON.stringify(v, null, 2)`
emits before an element rendered at indentation `n`. -/
def nlIndent (n : Nat) : List Char := '\n' :: List.replicate n ' '

mutual

/-- Renders a JSON value exactly as `JSON.stringify(value, null, 2)` does,
with `ind` the indentation column of the value's closing bracket. -/
def printVal : Json → Nat → List Char
  | .null, _ => ['n', 'u', 'l', 'l']
  | .bool true, _ => ['t', 'r', 'u', 'e']
  | .bool false, _ => ['f', 'a', 'l', 's', 'e']
  | .num n, _ => printInt n
  | .str s, _ => '"' :: (escString s.toList ++ ['"'])
  | .arr [], _ => ['[', ']']
  | .arr (e :: es), ind =>
      '[' :: (nlIndent (ind + 2) ++ printVal e (ind + 2) ++ printElems es (ind + 2) ++
        nlIndent ind ++ [']'])
  | .obj [], _ => ['\x7b', '\x7d']
  | .obj (f :: fs), ind =>
      '\x7b' :: (nlIndent (ind + 2) ++ printField f (ind + 2) ++ printFields fs (ind + 2) ++
        nlIndent ind ++ ['\x7d'])

/-- Renders one `"key": value` member of an object. -/
def printField : String × Json → Nat → List Char
  | (k, v), ind => '"' :: (escString k.toList ++ ['"', ':', ' '] ++ printVal v ind)

/-- Renders the remaining elements of a non-empty array, each preceded by a
comma and a fresh indented line. -/
def printElems : List Json → Nat → List Char
  | [], _ => []
  | e :: es, ind => ',' :: (nlIndent ind ++ printVal e ind ++ printElems es ind)

/-- Renders the remaining members of a non-empty object. -/
def printFields : List (String × Json) → Nat → List Char
  | [], _ => []
  | f :: fs, ind => ',' :: (nlIndent ind ++ printField f ind ++ printFields fs ind)

end

namespace JSON

/-- Model of `JSON.stringify(value, null, 2)`. -/
def stringify (v : Json) : String := String.mk (printVal v 0)

end JSON

/-- JSON insignificant whitespace. -/
def isWsChar (c : Char) : Bool := c = ' ' ∨ c = '\n' ∨ c = '\t' ∨ c = '\r'

/-- Drops leading JSON whitespace. -/
def skipWs : List Char → List Char
  | [] => []
  | c :: cs => if isWsChar c then skipWs cs else c :: cs

/-- Value of a hexadecimal digit character. -/
def hexVal (c : Char) : Option Nat :=
  if '0' ≤ c ∧ c ≤ '9' then some (c.toNat - 48)
  else if 'a' ≤ c ∧ c ≤ 'f' then some (c.toNat - 87)
  else if 'A' ≤ c ∧ c ≤ 'F' then some (c.toNat - 55)
  else none

/-- Single-character JSON escapes (`\"`, `\\`, `\/`, `\n`, `\r`, `\t`, `\b`,
`\f`). -/
def unescCh (e : Char) : Option Char :=
  if e = '"' then some '"'
  else if e = '\\' then some '\\'
  else if e = '/' then some '/'
  else if e = 'n' then some '\n'
  else if e = 'r' then some '\r'
  else if e = 't' then some '\t'
  else if e = 'b' then some '\x08'
  else if e = 'f' then some '\x0c'
  else none

/-- Parses the body of a JSON string literal after the opening quote, up to and
including the closing quote; returns the decoded characters and the remaining
input. -/
def parseStrBody : List Char → Option (List Char × List Char)
  | [] => none
  | c :: cs =>
    if c = '"' then some ([], cs)
    else if c = '\\' then
      match cs with
      | [] => none
      | e :: cs1 =>
        if e = 'u' then
          match cs1 with
          | h1 :: h2 :: h3 :: h4 :: cs2 => do
            let a ← hexVal h1
            let b ← hexVal h2
            let u ← hexVal h3
            let d ← hexVal h4
            let n := ((a * 16 + b) * 16 + u) * 16 + d
            if n < 0xd800 then
              let (body, rest) ← parseStrBody cs2
              some (Char.ofNat n :: body, rest)
            else none
          | _ => none
        else do
          let dc ← unescCh e
          let (body, rest) ← parseStrBody cs1
          some (dc :: body, rest)
    else do
      let (body, rest) ← parseStrBody cs
      some (c :: body, rest)
termination_by cs => cs.length
decreasing_by all_goals (simp_all; try omega)

/-- Splits off a maximal run of decimal digit characters. -/
def takeDigits : List Char → List Char × List Char
  | [] => ([], [])
  | c :: cs =>
    if c.isDigit then
      let (ds, rest) := takeDigits cs
      (c :: ds, rest)
    else ([], c :: cs)

/-- Numeric value of a run of decimal digit characters. -/
def digitsToNat (ds : List Char) : Nat :=
  ds.foldl (fun a c => 10 * a + (c.toNat - 48)) 0

/-- Parses a JSON integer (optional minus sign followed by digits). -/
def parseNum : List Char → Option (Json × List Char)
  | [] => none
  | c :: cs =>
    if c = '-' then
      let (ds, rest) := takeDigits cs
      if ds.isEmpty then none else some (.num (-(digitsToNat ds : Int)), rest)
    else
      let (ds, rest) := takeDigits (c :: cs)
      if ds.isEmpty then none else some (.num (digitsToNat ds), rest)

/-- Consumes an expected literal character sequence. -/
def expectChars : List Char → List Char → Option (List Char)
  | [], rest => some rest
  | p :: ps, c :: rest => if c = p then expectChars ps rest else none
  | _ :: _, [] => none

mutual

/-- Fuel-indexed recursive-descent parser for one JSON value; returns the value
and the remaining input. -/
def parseVal : Nat → List Char → Option (Json × List Char)
  | 0, _ => none
  | f + 1, cs =>
    match skipWs cs with
    | [] => none
    | c :: rest =>
      if c = 'n' then (expectChars ['u', 'l', 'l'] rest).map fun r => (.null, r)
      else if c = 't' then (expectChars ['r', 'u', 'e'] rest).map fun r => (.bool true, r)
      else if c = 'f' then (expectChars ['a', 'l', 's', 'e'] rest).map fun r => (.bool false, r)
      else if c = '"' then (parseStrBody rest).map fun p => (.str (String.mk p.1), p.2)
      else if c = '-' ∨ c.isDigit then parseNum (c :: rest)
      else if c = '[' then
        match skipWs rest with
        | ']' :: r => some (.arr [], r)
        | _ => do
          let (v, r1) ← parseVal f rest
          let (vs, r2) ← parseElemsRest f r1
          some (.arr (v :: vs), r2)
      else if c = '\x7b' then
        match skipWs rest with
        | '\x7d' :: r => some (.obj [], r)
        | _ => do
          let (fld, r1) ← parseOneField f rest
          let (flds, r2) ← parseFieldsRest f r1
          some (.obj (fld :: flds), r2)
      else none

/-- Parses one `"key": value` object member. -/
def parseOneField : Nat → List Char → Option ((String × Json) × List Char)
  | 0, _ => none
  | f + 1, cs =>
    match skipWs cs with
    | '"' :: r => do
      let (kcs, r1) ← parseStrBody r
      match skipWs r1 with
      | ':' :: r2 => do
        let (v, r3) ← parseVal f r2
        some ((String.mk kcs, v), r3)
      | _ => none
    | _ => none

/-- Parses the elements of an array after the first one: a `]` or a comma
followed by a value. -/
def parseElemsRest : Nat → List Char → Option (List Json × List Char)
  | 0, _ => none
  | f + 1, cs =>
    match skipWs cs with
    | ']' :: r => some ([], r)
    | ',' :: r => do
      let (v, r1) ← parseVal f r
      let (vs, r2) ← parseElemsRest f r1
      some (v :: vs, r2)
    | _ => none

/-- Parses the members of an object after the first one. -/
def parseFieldsRest : Nat → List Char → Option (List (String × Json) × List Char)
  | 0, _ => none
  | f + 1, cs =>
    match skipWs cs with
    | '\x7d' :: r => some ([], r)
    | ',' :: r => do
      let (fld, r1) ← parseOneField f r
      let (flds, r2) ← parseFieldsRest f r1
      some (fld :: flds, r2)
    | _ => none

end

namespace JSON

/-- Model of `JSON.parse`: parses one value, requires only whitespace after it,
and returns `none` where the JavaScript function would throw. -/
def parse (s : String) : Option Json :=
  match parseVal (s.length + 1) s.toList with
  | some (v, rest) => if (skipWs rest).isEmpty then some v else none
  | none => none

end JSON

/-! ## Credential Store: `loadTokens` / `saveTokens`

The token file is modelled by its content: `none` when the file does not exist
or cannot be read, `some data` when reading yields `data`. Directory creation
and the permission modes passed to `mkdir` / `writeFile` are filesystem
attributes outside this value-level model. -/

/-- `loadTokens`: read the token file and `JSON.parse` it; the `catch` turns
every read or parse failure into `null`, so a total function into `Option`. -/
def loadTokens (content : Option String) : Option Json :=
  match content with
  | none => none
  | some data => JSON.parse data

/-- `saveTokens`: the new content of the token file,
`JSON.stringify(tokens, null, 2)`. -/
def saveTokens (tokens : Json) : Option String :=
  some (JSON.stringify tokens)

/-! ## The refresh merge of `getAuthenticatedClient` -/

/-- First-match lookup of a field in a JSON object's field list. -/
def getField (k : String) : List (String × Json) → Option Json
  | [] => none
  | (k1, v) :: fs => if k1 = k then some v else getField k fs

/-- Own enumerable properties of a JSON value, as JavaScript object spread
enumerates them: an object's fields; a string's or array's indexed elements
under their numeric-string keys; nothing for primitives. -/
def spreadable : Json → List (String × Json)
  | .obj fs => fs
  | .arr es => es.enum.map fun p => (toString p.1, p.2)
  | .str s => s.toList.enum.map fun p => (toString p.1, Json.str (String.mk [p.2]))
  | _ => []

/-- JavaScript object-spread merge of `newTokens` over `existing` (the object
literal spreading `existing` first and `newTokens` second): keys of `existing`
keep their position with values overridden by `newTokens` where present, and
keys occurring only in `newTokens` are appended in order. -/
def jsObjMerge (existing newTokens : List (String × Json)) : List (String × Json) :=
  (existing.map fun kv =>
    match getField kv.1 newTokens with
    | some v => (kv.1, v)
    | none => kv) ++
  newTokens.filter fun kv => (getField kv.1 existing).isNone

/-- The record the `tokens` listener registered by `getAuthenticatedClient`
passes to `saveTokens`: reload the file (an unreadable file coalesces to the
empty object) and merge the newly refreshed fields on top. -/
def refreshMerge (content : Option String) (newTokens : List (String × Json)) :
    List (String × Json) :=
  let existing :=
    match loadTokens content with
    | some j => spreadable j
    | none => []
  jsObjMerge existing newTokens

/-- Token-file content after the `tokens` listener has run. -/
def refreshedContent (content : Option String) (newTokens : List (String × Json)) :
    Option String :=
  saveTokens (Json.obj (refreshMerge content newTokens))

/-! ## The `/callback` request handler of `startAuthFlow` -/

/-- A parsed callback request: the URL path and the `state` / `code` query
parameters, where `none` models `searchParams.get` returning `null`. -/
structure CallbackRequest where
  pathname : String
  stateParam : Option String
  codeParam : Option String
deriving Repr

/-- Result of `client.getToken(code)`: the exchanged tokens, or a thrown
error. -/
inductive ExchangeResult where
  | ok (tokens : Json)
  | error
deriving Repr

/-- Result of `saveTokens(tokens)`: success, or a thrown write error. -/
inductive SaveResult where
  | ok
  | error
deriving Repr

/-- Observable outcome of one run of the request handler: the HTTP response,
how often the token exchange ran, which records were passed to `saveTokens`,
and whether `server.close()` was invoked. -/
structure HandlerOutcome where
  status : Nat
  contentType : String
  body : String
  exchangeCalls : Nat
  saveCalls : List Json
  closed : Bool
deriving Repr

/-- JavaScript truthiness of a `searchParams.get` result: `null` and the empty
string are falsy. -/
def strTruthy : Option String → Bool
  | none => false
  | some s => !s.isEmpty

/-- The confirmation page sent on success. -/
def successPage : String :=
  "<h2>Authorization complete! You can close this tab and return to Claude.</h2>"

/-- The generic failure body sent when the exchange or the save throws. -/
def failurePage : String := "Authorization failed. Please try again."

/-- The request handler `startAuthFlow` installs, with `client.getToken` and
`saveTokens` as oracles. Branches in source order: wrong path 404; `state`
mismatch 403; missing/empty `code` 400; then the exchange and save inside
`try/catch/finally`, where only the `finally` closes the server. -/
def handleCallback (stateTok : String) (exchange : String → ExchangeResult)
    (save : Json → SaveResult) (req : CallbackRequest) : HandlerOutcome :=
  if req.pathname ≠ "/callback" then
    ⟨404, "text/plain", "Not found", 0, [], false⟩
  else if req.stateParam ≠ some stateTok then
    ⟨403, "text/plain", "Invalid state parameter", 0, [], false⟩
  else if !strTruthy req.codeParam then
    ⟨400, "text/plain", "Missing authorization code", 0, [], false⟩
  else
    match exchange (req.codeParam.getD "") with
    | .ok tokens =>
      match save tokens with
      | .ok => ⟨200, "text/html", successPage, 1, [tokens], true⟩
      | .error => ⟨500, "text/plain", failurePage, 1, [tokens], true⟩
    | .error => ⟨500, "text/plain", failurePage, 1, [], true⟩

/-! ## `startAuthFlow` setup: bind, redirect URI, state token, consent URL -/

/-- The full scope set requested at consent time. -/
def SCOPES : List String :=
  ["https://www.googleapis.com/auth/documents",
   "https://www.googleapis.com/auth/spreadsheets",
   "https://www.googleapis.com/auth/drive",
   "https://www.googleapis.com/auth/calendar"]

/-- The options `startAuthFlow` passes to `client.generateAuthUrl`. -/
structure AuthUrlOptions where
  access_type : String
  scope : List String
  prompt : String
  state : String
deriving Repr, DecidableEq

/-- Interface-level model of the consent URL `generateAuthUrl` builds: the URL
is represented by the data that determines it, the client's redirect URI and
the requested options. -/
structure ConsentUrl where
  redirectUri : String
  options : AuthUrlOptions
deriving Repr, DecidableEq

/-- Model of `client.generateAuthUrl(options)` on a client constructed with
`redirectUri`. -/
def generateAuthUrl (redirectUri : String) (options : AuthUrlOptions) : ConsentUrl :=
  ⟨redirectUri, options⟩

/-- Hex rendering of a byte list, as Node's `Buffer.prototype.toString` with
hex encoding produces it (lower case, two digits per byte). -/
def bytesToHexChars (bs : List Nat) : List Char :=
  (bs.map fun b => [hexDigitChar (b / 16), hexDigitChar (b % 16)]).flatten

/-- Hex string of a byte list. -/
def bytesToHex (bs : List Nat) : String := String.mk (bytesToHexChars bs)

/-- Everything `startAuthFlow` sets up inside the `listen` callback: the bind
parameters it listened with, the assigned port read back from the listener, the
derived redirect URI, the state token, and the consent URL the returned promise
resolves with. -/
structure FlowSetup where
  bindHost : String
  bindPort : Nat
  port : Nat
  redirectUri : String
  state : String
  authUrl : ConsentUrl
deriving Repr

/-- The setup computation of `startAuthFlow`, as a function of the ephemeral
port the OS assigned and the 32 bytes `crypto.randomBytes(32)` produced. -/
def startAuthFlowSetup (assignedPort : Nat) (randomBytes : List Nat) : FlowSetup :=
  let redirectUri := "http://localhost:" ++ toString assignedPort ++ "/callback"
  let state := bytesToHex randomBytes
  { bindHost := "127.0.0.1"
    bindPort := 0
    port := assignedPort
    redirectUri := redirectUri
    state := state
    authUrl := generateAuthUrl redirectUri
      { access_type := "offline", scope := SCOPES, prompt := "consent", state := state } }

/-! ## Listener / idle-timer lifecycle of one `startAuthFlow` invocation -/

/-- Lifecycle state after the listener is bound and the 5-minute idle timer is
set: whether the server is listening, whether the timer is still pending, and
how many times `server.close()` has actually closed the server. -/
structure ServerState where
  listening : Bool
  timerActive : Bool
  closeCount : Nat
deriving Repr, DecidableEq

/-- State right after `server.listen` succeeded and `setTimeout` ran. -/
def initialServerState : ServerState := ⟨true, true, 0⟩

/-- Events of one flow: an inbound HTTP request (with the exchange and save
oracles fixing what `client.getToken` and `saveTokens` would do), or the firing
of the 5-minute idle timer. -/
inductive FlowEvent where
  | request (req : CallbackRequest) (exchange : String → ExchangeResult)
      (save : Json → SaveResult)
  | timerFire

/-- Effect of `server.close()`: listening stops, and the `close` event handler
runs `clearTimeout`, so the timer is no longer pending. -/
def closeServer (s : ServerState) : ServerState :=
  ⟨false, false, s.closeCount + 1⟩

/-- One lifecycle step. A request only reaches the handler while the server is
listening (a closed socket refuses the connection); the timer callback can only
run while the timeout is pending, and it closes the server only
`if server.listening`. -/
def stepFlow (stateTok : String) (s : ServerState) : FlowEvent → ServerState
  | .request req exchange save =>
    if s.listening then
      if (handleCallback stateTok exchange save req).closed then closeServer s else s
    else s
  | .timerFire =>
    if s.timerActive ∧ s.listening then closeServer s else s

/-- Lifecycle state after a sequence of events. -/
def runFlow (stateTok : String) (evts : List FlowEvent) : ServerState :=
  evts.foldl (stepFlow stateTok) initialServerState

/-! ## Round-trip lemmas for the JSON codec -/

/-- Input whose head cannot extend a just-parsed number. -/
def boundaryOk : List Char → Bool
  | [] => true
  | c :: _ => !c.isDigit

theorem skipWs_replicate_space (n : Nat) (cs : List Char) :
    skipWs (List.replicate n ' ' ++ cs) = skipWs cs := by
  induction n with
  | zero => rfl
  | succ n ih => simpa [skipWs, isWsChar] using ih

theorem skipWs_nlIndent (n : Nat) (cs : List Char) :
    skipWs (nlIndent n ++ cs) = skipWs cs := by
  simp [nlIndent, skipWs, isWsChar, skipWs_replicate_space]

theorem skipWs_cons_of_not_ws {c : Char} (h : isWsChar c = false) (cs : List Char) :
    skipWs (c :: cs) = c :: cs := by
  simp [skipWs, h]

theorem hexVal_hexDigitChar : ∀ d < 16, hexVal (hexDigitChar d) = some d := by decide

theorem digitChar_facts :
    ∀ d < 10, (Char.ofNat (48 + d)).isDigit = true ∧ (Char.ofNat (48 + d)).toNat = 48 + d := by
  decide

theorem parseStrBody_escString (cs rest : List Char) :
    parseStrBody (escString cs ++ '"' :: rest) = some (cs, rest) := by
  induction cs with
  | nil =>
    show parseStrBody ('"' :: rest) = some ([], rest)
    rw [parseStrBody.eq_def]
    simp
  | cons c cs ih =>
    have hesc : escString (c :: cs) = escChar c ++ escString cs := by
      simp [escString]
    rw [hesc, List.append_assoc]
    by_cases h1 : c = '"'
    · subst h1
      show parseStrBody ('\\' :: '"' :: _) = _
      rw [parseStrBody.eq_def]
      simp [unescCh, ih]
    · by_cases h2 : c = '\\'
      · subst h2
        show parseStrBody ('\\' :: '\\' :: _) = _
        rw [parseStrBody.eq_def]
        simp [unescCh, ih]
      · by_cases h3 : c = '\n'
        · subst h3
          show parseStrBody ('\\' :: 'n' :: _) = _
          rw [parseStrBody.eq_def]
          simp [unescCh, ih]
        · by_cases h4 : c = '\r'
          · subst h4
            show parseStrBody ('\\' :: 'r' :: _) = _
            rw [parseStrBody.eq_def]
            simp [unescCh, ih]
          · by_cases h5 : c = '\t'
            · subst h5
              show parseStrBody ('\\' :: 't' :: _) = _
              rw [parseStrBody.eq_def]
              simp [unescCh, ih]
            · by_cases h6 : c = '\x08'
              · subst h6
                show parseStrBody ('\\' :: 'b' :: _) = _
                rw [parseStrBody.eq_def]
                simp [unescCh, ih]
              · by_cases h7 : c = '\x0c'
                · subst h7
                  show parseStrBody ('\\' :: 'f' :: _) = _
                  rw [parseStrBody.eq_def]
                  simp [unescCh, ih]
                · by_cases h8 : c.toNat < 32
                  · have hd : c.toNat / 16 < 16 := by omega
                    have hm : c.toNat % 16 < 16 := by omega
                    have hv1 := hexVal_hexDigitChar _ hd
                    have hv2 := hexVal_hexDigitChar _ hm
                    have hesc2 : escChar c =
                        ['\\', 'u', '0', '0', hexDigitChar (c.toNat / 16),
                          hexDigitChar (c.toNat % 16)] := by
                      simp [escChar, h1, h2, h3, h4, h5, h6, h7, h8]
                    rw [hesc2]
                    show parseStrBody ('\\' :: 'u' :: _) = _
                    rw [parseStrBody.eq_def]
                    have hv0 : hexVal '0' = some 0 := rfl
                    have hren : (((0 : Nat) * 16 + 0) * 16 + c.toNat / 16) * 16 + c.toNat % 16 =
                        c.toNat := by omega
                    simp only [List.cons_append, List.nil_append]
                    simp [hv0, hv1, hv2, hren, ih, Char.ofNat_toNat, show c.toNat < 0xd800 by
                      omega]
                    have hsum : c.toNat / 16 * 16 + c.toNat % 16 = c.toNat := by omega
                    rw [hsum]
                    exact ⟨by omega, Char.ofNat_toNat c⟩
                  · have hesc1 : escChar c = [c] := by
                      simp [escChar, h1, h2, h3, h4, h5, h6, h7, h8]
                    rw [hesc1]
                    show parseStrBody (c :: _) = _
                    rw [parseStrBody.eq_def]
                    simp [h1, h2, ih]


theorem takeDigits_of_boundary {cs : List Char} (h : boundaryOk cs = true) :
    takeDigits cs = ([], cs) := by
  cases cs with
  | nil => rfl
  | cons c t =>
    simp [boundaryOk] at h
    simp [takeDigits, h]

theorem takeDigits_append {ds rest : List Char} (hds : ∀ c ∈ ds, c.isDigit = true)
    (hrest : boundaryOk rest = true) : takeDigits (ds ++ rest) = (ds, rest) := by
  induction ds with
  | nil => simpa using takeDigits_of_boundary hrest
  | cons d ds ih =>
    have hd := hds d (by simp)
    simp [takeDigits, hd, ih fun c hc => hds c (by simp [hc])]

theorem foldl_rev_ofDigits (L : List Nat) (acc : Nat) :
    List.foldl (fun a d => 10 * a + d) acc L.reverse =
      acc * 10 ^ L.length + Nat.ofDigits 10 L := by
  induction L generalizing acc with
  | nil => simp
  | cons d L ih =>
    rw [List.reverse_cons, List.foldl_append, ih]
    simp [Nat.ofDigits_cons, Nat.pow_succ]
    ring

theorem foldl_digit_chars (L : List Nat) (acc : Nat) (h : ∀ d ∈ L, d < 10) :
    List.foldl (fun a c => 10 * a + (c.toNat - 48)) acc
      (L.map fun d => Char.ofNat (48 + d)) =
    List.foldl (fun a d => 10 * a + d) acc L := by
  induction L generalizing acc with
  | nil => rfl
  | cons d L ih =>
    have hd := (digitChar_facts d (h d (by simp))).2
    simp only [List.map_cons, List.foldl_cons, hd]
    rw [show 48 + d - 48 = d by omega]
    exact ih _ fun e he => h e (by simp [he])

theorem digits_lt_10 (n : Nat) : ∀ d ∈ Nat.digits 10 n, d < 10 := fun _ hd =>
  Nat.digits_lt_base (by norm_num) hd

theorem digitsToNat_natDigitsChars (n : Nat) : digitsToNat (natDigitsChars n) = n := by
  unfold digitsToNat natDigitsChars
  rw [foldl_digit_chars _ _ fun d hd => digits_lt_10 n d (List.mem_reverse.mp hd)]
  rw [foldl_rev_ofDigits]
  simp [Nat.ofDigits_digits]

theorem printNat_all_digits (n : Nat) : ∀ c ∈ printNat n, c.isDigit = true := by
  unfold printNat natDigitsChars
  split
  · intro c hc
    simp at hc
    subst hc
    decide
  · intro c hc
    simp only [List.mem_map, List.mem_reverse] at hc
    obtain ⟨d, hd, rfl⟩ := hc
    exact (digitChar_facts d (digits_lt_10 n d hd)).1

theorem printNat_ne_nil (n : Nat) : printNat n ≠ [] := by
  unfold printNat natDigitsChars
  split
  · simp
  · rename_i h
    simp [Nat.digits_ne_nil_iff_ne_zero.mpr h]

theorem digitsToNat_printNat (n : Nat) : digitsToNat (printNat n) = n := by
  unfold printNat
  split
  · rename_i h
    subst h
    rfl
  · exact digitsToNat_natDigitsChars n

theorem parseNum_printInt (n : Int) (rest : List Char) (hrest : boundaryOk rest = true) :
    parseNum (printInt n ++ rest) = some (.num n, rest) := by
  have htd : takeDigits (printNat n.natAbs ++ rest) = (printNat n.natAbs, rest) :=
    takeDigits_append (printNat_all_digits _) hrest
  obtain ⟨c, t, hct⟩ : ∃ c t, printNat n.natAbs = c :: t := by
    cases h : printNat n.natAbs with
    | nil => exact absurd h (printNat_ne_nil _)
    | cons c t => exact ⟨c, t, rfl⟩
  have hcd : c.isDigit = true := printNat_all_digits _ c (by rw [hct]; simp)
  have hcm : ¬c = '-' := by
    intro he
    rw [he] at hcd
    exact absurd hcd (by decide)
  by_cases hn : n < 0
  · have habs : printInt n = '-' :: printNat n.natAbs := by
      simp [printInt, hn]
    rw [habs, List.cons_append, parseNum, if_pos rfl, htd]
    rw [hct]
    simp only [List.isEmpty_cons, Bool.false_eq_true, if_false]
    rw [← hct, digitsToNat_printNat]
    have : -((n.natAbs : Nat) : Int) = n := by omega
    rw [this]
  · have habs : printInt n = printNat n.natAbs := by
      have : n.toNat = n.natAbs := by omega
      simp [printInt, hn, this]
    rw [habs, hct, List.cons_append, parseNum, if_neg hcm]
    rw [← List.cons_append, ← hct, htd, hct]
    simp only [List.isEmpty_cons, Bool.false_eq_true, if_false]
    rw [← hct, digitsToNat_printNat]
    have : ((n.natAbs : Nat) : Int) = n := by omega
    rw [this]

theorem mk_toList (s : String) : String.mk s.toList = s := by
  cases s
  rfl

theorem skipWs_space (cs : List Char) : skipWs (' ' :: cs) = skipWs cs := by
  simp [skipWs, isWsChar]

theorem parseVal_ws {cs1 cs2 : List Char} (h : skipWs cs1 = skipWs cs2) (f : Nat) :
    parseVal f cs1 = parseVal f cs2 := by
  cases f with
  | zero => rfl
  | succ f =>
    simp only [parseVal]
    rw [h]

theorem parseOneField_ws {cs1 cs2 : List Char} (h : skipWs cs1 = skipWs cs2) (f : Nat) :
    parseOneField f cs1 = parseOneField f cs2 := by
  cases f with
  | zero => rfl
  | succ f =>
    simp only [parseOneField]
    rw [h]

theorem digit_not_ws {c : Char} (h : c.isDigit = true) : isWsChar c = false := by
  by_contra hw
  rw [Bool.not_eq_false] at hw
  simp [isWsChar] at hw
  rcases hw with rfl | rfl | rfl | rfl <;> exact absurd h (by decide)

theorem digit_ne {c d : Char} (h : c.isDigit = true) (hd : d.isDigit = false) : c ≠ d := by
  intro he
  subst he
  rw [h] at hd
  exact Bool.true_eq_false.mp hd

theorem printInt_head (n : Int) :
    ∃ c t, printInt n = c :: t ∧ (c = '-' ∨ c.isDigit = true) := by
  unfold printInt
  split
  · exact ⟨'-', printNat n.natAbs, rfl, Or.inl rfl⟩
  · obtain ⟨c, t, hct⟩ : ∃ c t, printNat n.toNat = c :: t := by
      cases h : printNat n.toNat with
      | nil => exact absurd h (printNat_ne_nil _)
      | cons c t => exact ⟨c, t, rfl⟩
    exact ⟨c, t, hct, Or.inr (printNat_all_digits _ c (by rw [hct]; simp))⟩

theorem printVal_head (j : Json) (ind : Nat) :
    ∃ c t, printVal j ind = c :: t ∧ isWsChar c = false ∧ c ≠ ']' := by
  cases j with
  | null => exact ⟨'n', ['u', 'l', 'l'], by simp [printVal], by decide, by decide⟩
  | bool b =>
    cases b
    · exact ⟨'f', ['a', 'l', 's', 'e'], by simp [printVal], by decide, by decide⟩
    · exact ⟨'t', ['r', 'u', 'e'], by simp [printVal], by decide, by decide⟩
  | num n =>
    obtain ⟨c, t, hct, hc⟩ := printInt_head n
    refine ⟨c, t, by simp [printVal, hct], ?_, ?_⟩
    · rcases hc with rfl | hd
      · decide
      · exact digit_not_ws hd
    · rcases hc with rfl | hd
      · decide
      · exact digit_ne hd (by decide)
  | str s =>
    exact ⟨'"', escString s.toList ++ ['"'], by simp [printVal, String.toList], by decide,
      by decide⟩
  | arr es =>
    cases es with
    | nil => exact ⟨'[', [']'], by simp [printVal], by decide, by decide⟩
    | cons e es =>
      exact ⟨'[', nlIndent (ind + 2) ++ (printVal e (ind + 2) ++ (printElems es (ind + 2) ++
        (nlIndent ind ++ [']']))), by simp [printVal], by decide, by decide⟩
  | obj fs =>
    cases fs with
    | nil => exact ⟨'\x7b', ['\x7d'], by simp [printVal], by decide, by decide⟩
    | cons fld fs =>
      exact ⟨'\x7b', nlIndent (ind + 2) ++ (printField fld (ind + 2) ++ (printFields fs (ind + 2) ++
        (nlIndent ind ++ ['\x7d']))), by simp [printVal], by decide, by decide⟩

theorem boundaryOk_printElems (es : List Json) (ind ind2 : Nat) (rest : List Char) :
    boundaryOk (printElems es ind ++ (nlIndent ind2 ++ ']' :: rest)) = true := by
  cases es with
  | nil => simp [printElems, nlIndent, boundaryOk]
  | cons e es => simp [printElems, boundaryOk]

theorem boundaryOk_printFields (fs : List (String × Json)) (ind ind2 : Nat) (rest : List Char) :
    boundaryOk (printFields fs ind ++ (nlIndent ind2 ++ '\x7d' :: rest)) = true := by
  cases fs with
  | nil => simp [printFields, nlIndent, boundaryOk]
  | cons fld fs => simp [printFields, boundaryOk]

mutual

/-- Fuel sufficient for `parseVal` on the printed form of a value. -/
def pfuel : Json → Nat
  | .null | .bool _ | .num _ | .str _ => 1
  | .arr [] => 1
  | .arr (e :: es) => 1 + max (pfuel e) (efuel es)
  | .obj [] => 1
  | .obj (fld :: fs) => 1 + max (1 + pfuel fld.2) (ffuel fs)

/-- Fuel sufficient for `parseElemsRest` on printed remaining elements. -/
def efuel : List Json → Nat
  | [] => 1
  | e :: es => 1 + max (pfuel e) (efuel es)

/-- Fuel sufficient for `parseFieldsRest` on printed remaining members. -/
def ffuel : List (String × Json) → Nat
  | [] => 1
  | fld :: fs => 1 + max (1 + pfuel fld.2) (ffuel fs)

end

theorem pfuel_pos (j : Json) : 1 ≤ pfuel j := by
  cases j with
  | arr es => cases es <;> simp [pfuel]
  | obj fs => cases fs <;> simp [pfuel]
  | _ => simp [pfuel]

theorem efuel_pos (es : List Json) : 1 ≤ efuel es := by
  cases es <;> simp [efuel]

theorem ffuel_pos (fs : List (String × Json)) : 1 ≤ ffuel fs := by
  cases fs <;> simp [ffuel]


mutual

theorem parseVal_printVal : ∀ (j : Json) (f ind : Nat) (rest : List Char),
    pfuel j ≤ f → boundaryOk rest = true →
    parseVal f (printVal j ind ++ rest) = some (j, rest)
  | .null, f, ind, rest, hf, hb => by
    obtain ⟨g, rfl⟩ : ∃ g, f = g + 1 := ⟨f - 1, by have := pfuel_pos .null; omega⟩
    simp [printVal, parseVal, skipWs, isWsChar, expectChars]
  | .bool b, f, ind, rest, hf, hb => by
    obtain ⟨g, rfl⟩ : ∃ g, f = g + 1 := ⟨f - 1, by have := pfuel_pos (.bool b); omega⟩
    cases b <;> simp [printVal, parseVal, skipWs, isWsChar, expectChars]
  | .num n, f, ind, rest, hf, hb => by
    obtain ⟨g, rfl⟩ : ∃ g, f = g + 1 := ⟨f - 1, by have := pfuel_pos (.num n); omega⟩
    obtain ⟨c, t, hct, hc⟩ := printInt_head n
    have hnws : isWsChar c = false := by
      rcases hc with rfl | hd
      · decide
      · exact digit_not_ws hd
    have h1 : ¬c = 'n' := by
      rcases hc with rfl | hd
      · decide
      · exact digit_ne hd (by decide)
    have h2 : ¬c = 't' := by
      rcases hc with rfl | hd
      · decide
      · exact digit_ne hd (by decide)
    have h3 : ¬c = 'f' := by
      rcases hc with rfl | hd
      · decide
      · exact digit_ne hd (by decide)
    have h4 : ¬c = '"' := by
      rcases hc with rfl | hd
      · decide
      · exact digit_ne hd (by decide)
    have hpv : printVal (Json.num n) ind ++ rest = c :: (t ++ rest) := by
      simp [printVal, hct]
    rw [hpv]
    simp only [parseVal, skipWs_cons_of_not_ws hnws]
    simp only [h1, h2, h3, h4, hc, if_true, if_false, ite_false, ite_true]
    rw [← List.cons_append, ← hct]
    exact parseNum_printInt n rest hb
  | .str s, f, ind, rest, hf, hb => by
    obtain ⟨g, rfl⟩ : ∃ g, f = g + 1 := ⟨f - 1, by have := pfuel_pos (.str s); omega⟩
    have hpv : printVal (Json.str s) ind ++ rest =
        '"' :: (escString s.toList ++ '"' :: rest) := by
      simp [printVal]
    rw [hpv]
    simp only [parseVal, skipWs_cons_of_not_ws (by decide : isWsChar '"' = false)]
    simp [parseStrBody_escString, mk_toList]
  | .arr [], f, ind, rest, hf, hb => by
    obtain ⟨g, rfl⟩ : ∃ g, f = g + 1 := ⟨f - 1, by have := pfuel_pos (.arr []); omega⟩
    have hpv : printVal (Json.arr []) ind ++ rest = '[' :: ']' :: rest := by
      simp [printVal]
    rw [hpv]
    simp [parseVal, skipWs, isWsChar]
  | .arr (e :: es), f, ind, rest, hf, hb => by
    obtain ⟨g, rfl⟩ : ∃ g, f = g + 1 :=
      ⟨f - 1, by have := pfuel_pos (.arr (e :: es)); omega⟩
    have hpf : pfuel (Json.arr (e :: es)) = 1 + max (pfuel e) (efuel es) := by
      simp [pfuel]
    rw [hpf] at hf
    have hm : max (pfuel e) (efuel es) ≤ g := by omega
    have hfe : pfuel e ≤ g := le_trans (Nat.le_max_left _ _) hm
    have hfes : efuel es ≤ g := le_trans (Nat.le_max_right _ _) hm
    have hshape : printVal (Json.arr (e :: es)) ind ++ rest =
        '[' :: (nlIndent (ind + 2) ++ (printVal e (ind + 2) ++
          (printElems es (ind + 2) ++ (nlIndent ind ++ ']' :: rest)))) := by
      simp [printVal]
    rw [hshape]
    obtain ⟨c, t, hct, hcw, hcb⟩ := printVal_head e (ind + 2)
    have hskip : skipWs (nlIndent (ind + 2) ++ (printVal e (ind + 2) ++
        (printElems es (ind + 2) ++ (nlIndent ind ++ ']' :: rest)))) =
        c :: (t ++ (printElems es (ind + 2) ++ (nlIndent ind ++ ']' :: rest))) := by
      rw [skipWs_nlIndent, hct, List.cons_append, skipWs_cons_of_not_ws hcw]
    have hv : parseVal g (nlIndent (ind + 2) ++ (printVal e (ind + 2) ++
        (printElems es (ind + 2) ++ (nlIndent ind ++ ']' :: rest)))) =
        some (e, printElems es (ind + 2) ++ (nlIndent ind ++ ']' :: rest)) := by
      rw [parseVal_ws (skipWs_nlIndent _ _) g]
      exact parseVal_printVal e g (ind + 2) _ hfe (boundaryOk_printElems es (ind + 2) ind rest)
    have hes : parseElemsRest g (printElems es (ind + 2) ++ (nlIndent ind ++ ']' :: rest)) =
        some (es, rest) := parseElemsRest_printElems es g (ind + 2) ind rest hfes
    simp only [parseVal, skipWs_cons_of_not_ws (by decide : isWsChar '[' = false)]
    simp [hskip, hcb, hv, hes]
  | .obj [], f, ind, rest, hf, hb => by
    obtain ⟨g, rfl⟩ : ∃ g, f = g + 1 := ⟨f - 1, by have := pfuel_pos (.obj []); omega⟩
    have hpv : printVal (Json.obj []) ind ++ rest = '\x7b' :: '\x7d' :: rest := by
      simp [printVal]
    rw [hpv]
    simp [parseVal, skipWs, isWsChar]
  | .obj ((k, v) :: fs), f, ind, rest, hf, hb => by
    obtain ⟨g, rfl⟩ : ∃ g, f = g + 1 :=
      ⟨f - 1, by have := pfuel_pos (.obj ((k, v) :: fs)); omega⟩
    have hpf : pfuel (Json.obj ((k, v) :: fs)) = 1 + max (1 + pfuel v) (ffuel fs) := by
      simp [pfuel]
    rw [hpf] at hf
    have hm : max (1 + pfuel v) (ffuel fs) ≤ g := by omega
    have hfv : 1 + pfuel v ≤ g := le_trans (Nat.le_max_left _ _) hm
    have hffs : ffuel fs ≤ g := le_trans (Nat.le_max_right _ _) hm
    have hshape : printVal (Json.obj ((k, v) :: fs)) ind ++ rest =
        '\x7b' :: (nlIndent (ind + 2) ++ (printField (k, v) (ind + 2) ++
          (printFields fs (ind + 2) ++ (nlIndent ind ++ '\x7d' :: rest)))) := by
      simp [printVal]
    rw [hshape]
    have hpfld : printField (k, v) (ind + 2) =
        '"' :: (escString k.toList ++ ['"', ':', ' '] ++ printVal v (ind + 2)) := by
      simp [printField]
    have hskip : skipWs (nlIndent (ind + 2) ++ (printField (k, v) (ind + 2) ++
        (printFields fs (ind + 2) ++ (nlIndent ind ++ '\x7d' :: rest)))) =
        '"' :: ((escString k.toList ++ ['"', ':', ' '] ++ printVal v (ind + 2)) ++
          (printFields fs (ind + 2) ++ (nlIndent ind ++ '\x7d' :: rest))) := by
      rw [skipWs_nlIndent, hpfld, List.cons_append,
        skipWs_cons_of_not_ws (by decide : isWsChar '"' = false)]
    have hfld : parseOneField g (nlIndent (ind + 2) ++ (printField (k, v) (ind + 2) ++
        (printFields fs (ind + 2) ++ (nlIndent ind ++ '\x7d' :: rest)))) =
        some ((k, v), printFields fs (ind + 2) ++ (nlIndent ind ++ '\x7d' :: rest)) := by
      rw [parseOneField_ws (skipWs_nlIndent _ _) g]
      exact parseOneField_printField k v g (ind + 2) _ hfv
        (boundaryOk_printFields fs (ind + 2) ind rest)
    have hfs : parseFieldsRest g (printFields fs (ind + 2) ++
        (nlIndent ind ++ '\x7d' :: rest)) = some (fs, rest) :=
      parseFieldsRest_printFields fs g (ind + 2) ind rest hffs
    simp only [parseVal, skipWs_cons_of_not_ws (by decide : isWsChar '\x7b' = false)]
    simp [hskip, hfld, hfs]

termination_by j => sizeOf j
decreasing_by all_goals (simp_wf; try omega)

theorem parseOneField_printField : ∀ (k : String) (v : Json) (f ind : Nat) (rest : List Char),
    1 + pfuel v ≤ f → boundaryOk rest = true →
    parseOneField f (printField (k, v) ind ++ rest) = some ((k, v), rest)
  | k, v, f, ind, rest, hf, hb => by
    obtain ⟨g, rfl⟩ : ∃ g, f = g + 1 := ⟨f - 1, by omega⟩
    have hfv : pfuel v ≤ g := by omega
    have hshape : printField (k, v) ind ++ rest =
        '"' :: (escString k.toList ++ '"' :: (':' :: (' ' :: (printVal v ind ++ rest)))) := by
      simp [printField]
    rw [hshape]
    have hv : parseVal g (' ' :: (printVal v ind ++ rest)) = some (v, rest) := by
      rw [parseVal_ws (skipWs_space _) g]
      exact parseVal_printVal v g ind rest hfv hb
    simp only [parseOneField, skipWs_cons_of_not_ws (by decide : isWsChar '"' = false)]
    simp [parseStrBody_escString,
      skipWs_cons_of_not_ws (by decide : isWsChar ':' = false), hv, mk_toList]

termination_by _k v => 1 + sizeOf v
decreasing_by all_goals (simp_wf; try omega)

theorem parseElemsRest_printElems : ∀ (es : List Json) (f ind ind2 : Nat) (rest : List Char),
    efuel es ≤ f →
    parseElemsRest f (printElems es ind ++ (nlIndent ind2 ++ ']' :: rest)) = some (es, rest)
  | [], f, ind, ind2, rest, hf => by
    obtain ⟨g, rfl⟩ : ∃ g, f = g + 1 := ⟨f - 1, by have := efuel_pos []; omega⟩
    simp only [printElems, List.nil_append, parseElemsRest]
    rw [skipWs_nlIndent, skipWs_cons_of_not_ws (by decide : isWsChar ']' = false)]
    simp
  | e :: es, f, ind, ind2, rest, hf => by
    obtain ⟨g, rfl⟩ : ∃ g, f = g + 1 := ⟨f - 1, by have := efuel_pos (e :: es); omega⟩
    have hefc : efuel (e :: es) = 1 + max (pfuel e) (efuel es) := by simp [efuel]
    rw [hefc] at hf
    have hm : max (pfuel e) (efuel es) ≤ g := by omega
    have hfe : pfuel e ≤ g := le_trans (Nat.le_max_left _ _) hm
    have hfes : efuel es ≤ g := le_trans (Nat.le_max_right _ _) hm
    have hshape : printElems (e :: es) ind ++ (nlIndent ind2 ++ ']' :: rest) =
        ',' :: (nlIndent ind ++ (printVal e ind ++
          (printElems es ind ++ (nlIndent ind2 ++ ']' :: rest)))) := by
      simp [printElems]
    rw [hshape]
    have hv : parseVal g (nlIndent ind ++ (printVal e ind ++
        (printElems es ind ++ (nlIndent ind2 ++ ']' :: rest)))) =
        some (e, printElems es ind ++ (nlIndent ind2 ++ ']' :: rest)) := by
      rw [parseVal_ws (skipWs_nlIndent _ _) g]
      exact parseVal_printVal e g ind _ hfe (boundaryOk_printElems es ind ind2 rest)
    have hes : parseElemsRest g (printElems es ind ++ (nlIndent ind2 ++ ']' :: rest)) =
        some (es, rest) := parseElemsRest_printElems es g ind ind2 rest hfes
    simp only [parseElemsRest, skipWs_cons_of_not_ws (by decide : isWsChar ',' = false)]
    simp [hv, hes]

termination_by es => sizeOf es
decreasing_by all_goals (simp_wf; try omega)

theorem parseFieldsRest_printFields :
    ∀ (fs : List (String × Json)) (f ind ind2 : Nat) (rest : List Char),
    ffuel fs ≤ f →
    parseFieldsRest f (printFields fs ind ++ (nlIndent ind2 ++ '\x7d' :: rest)) =
      some (fs, rest)
  | [], f, ind, ind2, rest, hf => by
    obtain ⟨g, rfl⟩ : ∃ g, f = g + 1 := ⟨f - 1, by have := ffuel_pos []; omega⟩
    simp only [printFields, List.nil_append, parseFieldsRest]
    rw [skipWs_nlIndent, skipWs_cons_of_not_ws (by decide : isWsChar '\x7d' = false)]
    simp
  | (k, v) :: fs, f, ind, ind2, rest, hf => by
    obtain ⟨g, rfl⟩ : ∃ g, f = g + 1 :=
      ⟨f - 1, by have := ffuel_pos ((k, v) :: fs); omega⟩
    have hffc : ffuel ((k, v) :: fs) = 1 + max (1 + pfuel v) (ffuel fs) := by simp [ffuel]
    rw [hffc] at hf
    have hm : max (1 + pfuel v) (ffuel fs) ≤ g := by omega
    have hfv : 1 + pfuel v ≤ g := le_trans (Nat.le_max_left _ _) hm
    have hffs : ffuel fs ≤ g := le_trans (Nat.le_max_right _ _) hm
    have hshape : printFields ((k, v) :: fs) ind ++ (nlIndent ind2 ++ '\x7d' :: rest) =
        ',' :: (nlIndent ind ++ (printField (k, v) ind ++
          (printFields fs ind ++ (nlIndent ind2 ++ '\x7d' :: rest)))) := by
      simp [printFields]
    rw [hshape]
    have hfld : parseOneField g (nlIndent ind ++ (printField (k, v) ind ++
        (printFields fs ind ++ (nlIndent ind2 ++ '\x7d' :: rest)))) =
        some ((k, v), printFields fs ind ++ (nlIndent ind2 ++ '\x7d' :: rest)) := by
      rw [parseOneField_ws (skipWs_nlIndent _ _) g]
      exact parseOneField_printField k v g ind _ hfv (boundaryOk_printFields fs ind ind2 rest)
    have hfs : parseFieldsRest g (printFields fs ind ++ (nlIndent ind2 ++ '\x7d' :: rest)) =
        some (fs, rest) := parseFieldsRest_printFields fs g ind ind2 rest hffs
    simp only [parseFieldsRest, skipWs_cons_of_not_ws (by decide : isWsChar ',' = false)]
    simp [hfld, hfs]
termination_by fs => sizeOf fs
decreasing_by all_goals (simp_wf; try omega)

end

mutual

theorem pfuel_le : ∀ (j : Json) (ind : Nat), pfuel j ≤ (printVal j ind).length + 1
  | .null, ind => by simp [pfuel, printVal]
  | .bool b, ind => by cases b <;> simp [pfuel, printVal]
  | .num n, ind => by simp [pfuel, printVal]
  | .str s, ind => by simp [pfuel, printVal]
  | .arr [], ind => by simp [pfuel, printVal]
  | .arr (e :: es), ind => by
    have h1 := pfuel_le e (ind + 2)
    have h2 := efuel_le es (ind + 2)
    have hM : max (pfuel e) (efuel es) ≤
        (printVal e (ind + 2)).length + (printElems es (ind + 2)).length + 1 :=
      Nat.max_le.mpr ⟨by omega, by omega⟩
    simp only [pfuel, printVal, nlIndent, List.length_cons, List.length_append,
      List.length_replicate]
    omega
  | .obj [], ind => by simp [pfuel, printVal]
  | .obj ((k, v) :: fs), ind => by
    have h1 := pfuel_le v (ind + 2)
    have h2 := ffuel_le fs (ind + 2)
    have hM : max (1 + pfuel v) (ffuel fs) ≤ (escString k.toList).length +
        (printVal v (ind + 2)).length + (printFields fs (ind + 2)).length + 5 :=
      Nat.max_le.mpr ⟨by omega, by omega⟩
    simp only [pfuel, printVal, printField, nlIndent, List.length_cons, List.length_append,
      List.length_replicate]
    omega

termination_by j => sizeOf j
decreasing_by all_goals (simp_wf; try omega)

theorem efuel_le : ∀ (es : List Json) (ind : Nat), efuel es ≤ (printElems es ind).length + 1
  | [], ind => by simp [efuel, printElems]
  | e :: es, ind => by
    have h1 := pfuel_le e ind
    have h2 := efuel_le es ind
    have hM : max (pfuel e) (efuel es) ≤
        (printVal e ind).length + (printElems es ind).length + 1 :=
      Nat.max_le.mpr ⟨by omega, by omega⟩
    simp only [efuel, printElems, nlIndent, List.length_cons, List.length_append,
      List.length_replicate]
    omega

termination_by es => sizeOf es
decreasing_by all_goals (simp_wf; try omega)

theorem ffuel_le : ∀ (fs : List (String × Json)) (ind : Nat),
    ffuel fs ≤ (printFields fs ind).length + 1
  | [], ind => by simp [ffuel, printFields]
  | (k, v) :: fs, ind => by
    have h1 := pfuel_le v ind
    have h2 := ffuel_le fs ind
    have hM : max (1 + pfuel v) (ffuel fs) ≤ (escString k.toList).length +
        (printVal v ind).length + (printFields fs ind).length + 5 :=
      Nat.max_le.mpr ⟨by omega, by omega⟩
    simp only [ffuel, printFields, printField, nlIndent, List.length_cons, List.length_append,
      List.length_replicate]
    omega

termination_by fs => sizeOf fs
decreasing_by all_goals (simp_wf; try omega)
end

/-- The JSON codec round trip: parsing the pretty-printed rendering of any
value returns exactly that value. -/
theorem parse_stringify (j : Json) : JSON.parse (JSON.stringify j) = some j := by
  unfold JSON.parse JSON.stringify
  have hlen : (String.mk (printVal j 0)).length = (printVal j 0).length := rfl
  have htl : (String.mk (printVal j 0)).toList = printVal j 0 := rfl
  rw [hlen, htl]
  have h := parseVal_printVal j ((printVal j 0).length + 1) 0 []
    (by have := pfuel_le j 0; omega) rfl
  rw [List.append_nil] at h
  rw [h]
  simp [skipWs]

/-- Saving a record and loading it back returns the record. -/
theorem load_after_save (tokens : Json) : loadTokens (saveTokens tokens) = some tokens := by
  simp [loadTokens, saveTokens, parse_stringify]

/-! ## Lemmas about the object-spread merge -/

theorem getField_append (k : String) (a b : List (String × Json)) :
    getField k (a ++ b) =
      match getField k a with
      | some v => some v
      | none => getField k b := by
  induction a with
  | nil => simp [getField]
  | cons kv a ih =>
    obtain ⟨k1, v⟩ := kv
    by_cases h : k1 = k <;> simp [getField, h, ih]

theorem getField_filter_congr (k : String) (l : List (String × Json))
    (p q : String × Json → Bool) (h : ∀ v, p (k, v) = q (k, v)) :
    getField k (l.filter p) = getField k (l.filter q) := by
  induction l with
  | nil => rfl
  | cons kv l ih =>
    obtain ⟨k1, v⟩ := kv
    by_cases hk : k1 = k
    · subst hk
      cases hq : q (k1, v) <;>
        simp [List.filter_cons, h v, hq, getField, ih]
    · cases hp : p (k1, v) <;> cases hq2 : q (k1, v) <;>
        simp [List.filter_cons, hp, hq2, getField, hk, ih]

/-- Field lookup after the object-spread merge: a key present in the refreshed
fields gets the refreshed value, any other key keeps its stored value. -/
theorem getField_jsObjMerge (k : String) (existing newTokens : List (String × Json)) :
    getField k (jsObjMerge existing newTokens) =
      match getField k existing with
      | some ov =>
        match getField k newTokens with
        | some nv => some nv
        | none => some ov
      | none => getField k newTokens := by
  induction existing with
  | nil =>
    have hp : ∀ kv ∈ newTokens,
        ((getField kv.1 ([] : List (String × Json))).isNone : Bool) = true := by
      intro kv _
      rfl
    simp only [jsObjMerge, List.map_nil, List.nil_append, List.filter_eq_self.mpr hp]
    simp [getField]
  | cons kv ex ih =>
    obtain ⟨k1, v⟩ := kv
    by_cases hk : k1 = k
    · subst hk
      cases hn : getField k1 newTokens <;>
        simp [jsObjMerge, getField, hn]
    · have hskiphead : getField k (jsObjMerge ((k1, v) :: ex) newTokens) =
          getField k ((ex.map fun kv =>
            match getField kv.1 newTokens with
            | some nv => (kv.1, nv)
            | none => kv) ++
            newTokens.filter fun kv => (getField kv.1 ((k1, v) :: ex)).isNone) := by
        simp only [jsObjMerge, List.map_cons, List.cons_append]
        cases hn : getField k1 newTokens <;> simp [getField, hk, hn]
      have hfilter : getField k (newTokens.filter fun kv =>
          (getField kv.1 ((k1, v) :: ex)).isNone) =
          getField k (newTokens.filter fun kv => (getField kv.1 ex).isNone) := by
        apply getField_filter_congr
        intro w
        simp [getField, hk]
      rw [hskiphead, getField_append, hfilter, ← getField_append]
      have hmerge : (ex.map fun kv =>
          match getField kv.1 newTokens with
          | some nv => (kv.1, nv)
          | none => kv) ++
          (newTokens.filter fun kv => (getField kv.1 ex).isNone) = jsObjMerge ex newTokens := rfl
      rw [hmerge, ih]
      simp [getField, hk]

/-! ## Lemmas about the listener / idle-timer lifecycle -/

/-- The state after the server has been closed: not listening, timer cleared,
one effective close. -/
def closedState : ServerState := ⟨false, false, 1⟩

theorem stepFlow_closed_absorbing (stateTok : String) (e : FlowEvent) :
    stepFlow stateTok closedState e = closedState := by
  cases e <;> simp [stepFlow, closedState]

theorem foldl_closed_absorbing (stateTok : String) (evts : List FlowEvent) :
    evts.foldl (stepFlow stateTok) closedState = closedState := by
  induction evts with
  | nil => rfl
  | cons e evts ih => simp [List.foldl_cons, stepFlow_closed_absorbing, ih]

theorem stepFlow_two_states (stateTok : String) (s : ServerState) (e : FlowEvent)
    (h : s = initialServerState ∨ s = closedState) :
    stepFlow stateTok s e = initialServerState ∨ stepFlow stateTok s e = closedState := by
  rcases h with rfl | rfl
  · cases e with
    | request req ex sv =>
      cases hc : (handleCallback stateTok ex sv req).closed <;>
        simp [stepFlow, initialServerState, closedState, closeServer, hc]
    | timerFire => simp [stepFlow, initialServerState, closedState, closeServer]
  · rw [stepFlow_closed_absorbing]
    exact Or.inr rfl

theorem foldl_two_states (stateTok : String) (evts : List FlowEvent) (s : ServerState)
    (h : s = initialServerState ∨ s = closedState) :
    evts.foldl (stepFlow stateTok) s = initialServerState ∨
      evts.foldl (stepFlow stateTok) s = closedState := by
  induction evts generalizing s with
  | nil => simpa using h
  | cons e evts ih => exact ih _ (stepFlow_two_states stateTok s e h)

theorem runFlow_two_states (stateTok : String) (evts : List FlowEvent) :
    runFlow stateTok evts = initialServerState ∨ runFlow stateTok evts = closedState :=
  foldl_two_states stateTok evts initialServerState (Or.inl rfl)

theorem stepFlow_timerFire_closes (stateTok : String) (s : ServerState)
    (h : s = initialServerState ∨ s = closedState) :
    stepFlow stateTok s FlowEvent.timerFire = closedState := by
  rcases h with rfl | rfl
  · simp [stepFlow, initialServerState, closedState, closeServer]
  · exact stepFlow_closed_absorbing stateTok _

theorem foldl_timerFire_closed (stateTok : String) (evts : List FlowEvent) (s : ServerState)
    (h : s = initialServerState ∨ s = closedState)
    (hmem : FlowEvent.timerFire ∈ evts) :
    evts.foldl (stepFlow stateTok) s = closedState := by
  induction evts generalizing s with
  | nil => cases hmem
  | cons e evts ih =>
    rcases List.mem_cons.mp hmem with he | hmem2
    · subst he
      rw [List.foldl_cons, stepFlow_timerFire_closes stateTok s h]
      exact foldl_closed_absorbing stateTok evts
    · exact ih _ (stepFlow_two_states stateTok s e h) hmem2

/-! ## Lemmas about the hex rendering of the state token -/

/-- The lower-case hexadecimal alphabet. -/
def hexAlphabet : List Char := (List.range 16).map hexDigitChar

theorem hexDigitChar_mem : ∀ d < 16, hexDigitChar d ∈ hexAlphabet := by decide

theorem hexDigitChar_inj : ∀ d < 16, ∀ e < 16, hexDigitChar d = hexDigitChar e → d = e := by
  decide

theorem bytesToHexChars_length (bs : List Nat) :
    (bytesToHexChars bs).length = 2 * bs.length := by
  induction bs with
  | nil => rfl
  | cons b bs ih =>
    simp only [bytesToHexChars, List.map_cons, List.flatten_cons] at ih ⊢
    simp only [List.length_append, List.length_cons, List.length_nil, ih]
    omega

theorem bytesToHexChars_all_hex (bs : List Nat) (h : ∀ b ∈ bs, b < 256) :
    ∀ c ∈ bytesToHexChars bs, c ∈ hexAlphabet := by
  induction bs with
  | nil => intro c hc; cases hc
  | cons b bs ih =>
    intro c hc
    have hb : b < 256 := h b (by simp)
    simp only [bytesToHexChars, List.map_cons, List.flatten_cons, List.cons_append,
      List.nil_append, List.mem_cons] at hc
    rcases hc with rfl | rfl | hc
    · exact hexDigitChar_mem _ (by omega)
    · exact hexDigitChar_mem _ (by omega)
    · exact ih (fun x hx => h x (by simp [hx])) c hc

theorem bytesToHexChars_inj : ∀ a b : List Nat, (∀ x ∈ a, x < 256) → (∀ x ∈ b, x < 256) →
    bytesToHexChars a = bytesToHexChars b → a = b := by
  intro a
  induction a with
  | nil =>
    intro b _ _ h
    cases b with
    | nil => rfl
    | cons y ys => simp [bytesToHexChars] at h
  | cons x xs ih =>
    intro b ha hb h
    cases b with
    | nil => simp [bytesToHexChars] at h
    | cons y ys =>
      have hx : x < 256 := ha x (by simp)
      have hy : y < 256 := hb y (by simp)
      simp only [bytesToHexChars, List.map_cons, List.flatten_cons, List.cons_append,
        List.nil_append, List.cons.injEq] at h
      obtain ⟨h1, h2, h3⟩ := h
      have e1 := hexDigitChar_inj _ (by omega) _ (by omega) h1
      have e2 := hexDigitChar_inj _ (by omega) _ (by omega) h2
      have hxy : x = y := by omega
      subst hxy
      have htail : xs = ys :=
        ih ys (fun z hz => ha z (by simp [hz])) (fun z hz => hb z (by simp [hz])) h3
      rw [htail]

/-! ## Claim theorems -/

/-- C1 (counterexample): a `/callback` request whose `state` parameter differs
from the flow's token gets HTTP 403 and no token exchange, but the handler
returns without invoking `server.close()` — refuting, at a concrete input, the
claim's assertion that the listener is closed on a state mismatch. -/
theorem c1_state_mismatch_counterexample :
    (handleCallback "s0" (fun _ => ExchangeResult.ok (Json.obj []))
      (fun _ => SaveResult.ok) ⟨"/callback", some "evil", some "c"⟩).status = 403 ∧
    (handleCallback "s0" (fun _ => ExchangeResult.ok (Json.obj []))
      (fun _ => SaveResult.ok) ⟨"/callback", some "evil", some "c"⟩).exchangeCalls = 0 ∧
    (handleCallback "s0" (fun _ => ExchangeResult.ok (Json.obj []))
      (fun _ => SaveResult.ok) ⟨"/callback", some "evil", some "c"⟩).closed = false :=
  ⟨rfl, rfl, rfl⟩

/-- C1 (amended): every callback request to `/callback` whose `state` query
parameter is not exactly the flow's token is answered HTTP 403, the token
exchange is never invoked for it, and the handler returns without closing the
listener (the listener stays open; only the exchange path or the 5-minute
timeout closes it). -/
theorem c1_state_mismatch_amended (stateTok : String) (exchange : String → ExchangeResult)
    (save : Json → SaveResult) (req : CallbackRequest)
    (hpath : req.pathname = "/callback") (hstate : req.stateParam ≠ some stateTok) :
    (handleCallback stateTok exchange save req).status = 403 ∧
    (handleCallback stateTok exchange save req).exchangeCalls = 0 ∧
    (handleCallback stateTok exchange save req).closed = false := by
  simp [handleCallback, hpath, hstate]

/-- C1 (witness). -/
theorem c1_state_mismatch_witness :
    (handleCallback "s0" (fun _ => ExchangeResult.error) (fun _ => SaveResult.ok)
      ⟨"/callback", some "other", none⟩).status = 403 ∧
    (handleCallback "s0" (fun _ => ExchangeResult.error) (fun _ => SaveResult.ok)
      ⟨"/callback", some "other", none⟩).exchangeCalls = 0 ∧
    (handleCallback "s0" (fun _ => ExchangeResult.error) (fun _ => SaveResult.ok)
      ⟨"/callback", some "other", none⟩).closed = false :=
  c1_state_mismatch_amended "s0" _ _ _ rfl (by decide)

/-- C4 (counterexample): a callback with the correct `state` but no `code`
parameter gets HTTP 400 with no exchange, but the handler returns without
closing the listener — refuting the claim's "and closes" at a concrete
input. -/
theorem c4_missing_code_counterexample :
    (handleCallback "s0" (fun _ => ExchangeResult.ok (Json.obj []))
      (fun _ => SaveResult.ok) ⟨"/callback", some "s0", none⟩).status = 400 ∧
    (handleCallback "s0" (fun _ => ExchangeResult.ok (Json.obj []))
      (fun _ => SaveResult.ok) ⟨"/callback", some "s0", none⟩).exchangeCalls = 0 ∧
    (handleCallback "s0" (fun _ => ExchangeResult.ok (Json.obj []))
      (fun _ => SaveResult.ok) ⟨"/callback", some "s0", none⟩).closed = false :=
  ⟨rfl, rfl, rfl⟩

/-- C4 (amended): every callback request with matching `state` but no `code`
query parameter is answered HTTP 400, the token exchange is not called, and the
handler returns without closing the listener. -/
theorem c4_missing_code_amended (stateTok : String) (exchange : String → ExchangeResult)
    (save : Json → SaveResult) (req : CallbackRequest)
    (hpath : req.pathname = "/callback") (hstate : req.stateParam = some stateTok)
    (hcode : req.codeParam = none) :
    (handleCallback stateTok exchange save req).status = 400 ∧
    (handleCallback stateTok exchange save req).exchangeCalls = 0 ∧
    (handleCallback stateTok exchange save req).closed = false := by
  simp [handleCallback, hpath, hstate, hcode, strTruthy]

/-- C4 (witness). -/
theorem c4_missing_code_witness :
    (handleCallback "s0" (fun _ => ExchangeResult.error) (fun _ => SaveResult.ok)
      ⟨"/callback", some "s0", none⟩).status = 400 ∧
    (handleCallback "s0" (fun _ => ExchangeResult.error) (fun _ => SaveResult.ok)
      ⟨"/callback", some "s0", none⟩).exchangeCalls = 0 ∧
    (handleCallback "s0" (fun _ => ExchangeResult.error) (fun _ => SaveResult.ok)
      ⟨"/callback", some "s0", none⟩).closed = false :=
  c4_missing_code_amended "s0" _ _ _ rfl rfl rfl

/-- C3 (counterexample): a callback with matching `state`, a present `code`,
and a succeeding token exchange, but whose `saveTokens` call throws, is
answered HTTP 500, not 200 — refuting the claim's "responds HTTP 200" for a
concrete input on which its stated hypotheses (state match, code present,
exchange succeeds) all hold. -/
theorem c3_success_counterexample :
    (handleCallback "s0" (fun _ => ExchangeResult.ok (Json.obj [("access_token", Json.str "t")]))
      (fun _ => SaveResult.error) ⟨"/callback", some "s0", some "c"⟩).exchangeCalls = 1 ∧
    (handleCallback "s0" (fun _ => ExchangeResult.ok (Json.obj [("access_token", Json.str "t")]))
      (fun _ => SaveResult.error) ⟨"/callback", some "s0", some "c"⟩).status = 500 ∧
    ¬(handleCallback "s0" (fun _ => ExchangeResult.ok (Json.obj [("access_token", Json.str "t")]))
      (fun _ => SaveResult.error) ⟨"/callback", some "s0", some "c"⟩).status = 200 :=
  ⟨rfl, rfl, by decide⟩

/-- C3 (amended): every callback request with matching `state`, a non-empty
`code` parameter, a succeeding code exchange, and a succeeding `saveTokens`
call performs exactly one exchange, exactly one save with the exchanged
tokens, responds HTTP 200 with the confirmation page, and closes the
listener. -/
theorem c3_success_amended (stateTok code : String) (tokens : Json)
    (exchange : String → ExchangeResult) (save : Json → SaveResult) (req : CallbackRequest)
    (hpath : req.pathname = "/callback") (hstate : req.stateParam = some stateTok)
    (hcode : req.codeParam = some code) (hne : ¬code = "")
    (hex : exchange code = ExchangeResult.ok tokens) (hsave : save tokens = SaveResult.ok) :
    (handleCallback stateTok exchange save req).exchangeCalls = 1 ∧
    (handleCallback stateTok exchange save req).saveCalls = [tokens] ∧
    (handleCallback stateTok exchange save req).status = 200 ∧
    (handleCallback stateTok exchange save req).contentType = "text/html" ∧
    (handleCallback stateTok exchange save req).body = successPage ∧
    (handleCallback stateTok exchange save req).closed = true := by
  have hie : code.isEmpty = false := by
    cases hc : code.isEmpty
    · rfl
    · exact absurd ((String.isEmpty_iff code).mp hc) hne
  simp [handleCallback, hpath, hstate, hcode, strTruthy, hie, hex, hsave]

/-- C3 (witness). -/
theorem c3_success_witness :
    (handleCallback "s0" (fun _ => ExchangeResult.ok (Json.obj [("access_token", Json.str "t")]))
      (fun _ => SaveResult.ok) ⟨"/callback", some "s0", some "code1"⟩).exchangeCalls = 1 ∧
    (handleCallback "s0" (fun _ => ExchangeResult.ok (Json.obj [("access_token", Json.str "t")]))
      (fun _ => SaveResult.ok) ⟨"/callback", some "s0", some "code1"⟩).saveCalls =
        [Json.obj [("access_token", Json.str "t")]] ∧
    (handleCallback "s0" (fun _ => ExchangeResult.ok (Json.obj [("access_token", Json.str "t")]))
      (fun _ => SaveResult.ok) ⟨"/callback", some "s0", some "code1"⟩).status = 200 ∧
    (handleCallback "s0" (fun _ => ExchangeResult.ok (Json.obj [("access_token", Json.str "t")]))
      (fun _ => SaveResult.ok) ⟨"/callback", some "s0", some "code1"⟩).contentType =
        "text/html" ∧
    (handleCallback "s0" (fun _ => ExchangeResult.ok (Json.obj [("access_token", Json.str "t")]))
      (fun _ => SaveResult.ok) ⟨"/callback", some "s0", some "code1"⟩).body = successPage ∧
    (handleCallback "s0" (fun _ => ExchangeResult.ok (Json.obj [("access_token", Json.str "t")]))
      (fun _ => SaveResult.ok) ⟨"/callback", some "s0", some "code1"⟩).closed = true :=
  c3_success_amended "s0" "code1" (Json.obj [("access_token", Json.str "t")]) _ _ _
    rfl rfl rfl (by decide) rfl rfl

/-- C9: a callback request to `/callback` carrying no `state` parameter at all
is treated exactly like a state mismatch: HTTP 403, no token exchange, and the
outcome is entirely independent of the `code` parameter (it is never
examined). -/
theorem c9_missing_state (stateTok : String) (exchange : String → ExchangeResult)
    (save : Json → SaveResult) (req : CallbackRequest)
    (hpath : req.pathname = "/callback") (hstate : req.stateParam = none) :
    (handleCallback stateTok exchange save req).status = 403 ∧
    (handleCallback stateTok exchange save req).exchangeCalls = 0 ∧
    ∀ c1 c2 : Option String,
      handleCallback stateTok exchange save { req with codeParam := c1 } =
        handleCallback stateTok exchange save { req with codeParam := c2 } := by
  refine ⟨?_, ?_, ?_⟩
  · simp [handleCallback, hpath, hstate]
  · simp [handleCallback, hpath, hstate]
  · intro c1 c2
    simp [handleCallback, hpath, hstate]

/-- C9 (witness). -/
theorem c9_missing_state_witness :
    (handleCallback "s0" (fun _ => ExchangeResult.error) (fun _ => SaveResult.ok)
      ⟨"/callback", none, some "c"⟩).status = 403 ∧
    handleCallback "s0" (fun _ => ExchangeResult.error) (fun _ => SaveResult.ok)
      ⟨"/callback", none, some "c"⟩ =
      handleCallback "s0" (fun _ => ExchangeResult.error) (fun _ => SaveResult.ok)
        ⟨"/callback", none, none⟩ := by
  have h := c9_missing_state "s0" (fun _ => ExchangeResult.error) (fun _ => SaveResult.ok)
    ⟨"/callback", none, some "c"⟩ rfl rfl
  exact ⟨h.1, h.2.2 (some "c") none⟩

/-- C10: with matching `state` and a non-empty `code`, if the exchange succeeds
but `saveTokens` throws, the browser gets the same generic HTTP 500 failure
response as for an exchange failure (status, content type, and body all agree
with the exchange-error branch), and the listener is still closed by the
`finally`. -/
theorem c10_save_failure (stateTok code : String) (tokens : Json)
    (exchange : String → ExchangeResult) (save : Json → SaveResult) (req : CallbackRequest)
    (hpath : req.pathname = "/callback") (hstate : req.stateParam = some stateTok)
    (hcode : req.codeParam = some code) (hne : ¬code = "")
    (hex : exchange code = ExchangeResult.ok tokens) (hsave : save tokens = SaveResult.error) :
    (handleCallback stateTok exchange save req).status = 500 ∧
    (handleCallback stateTok exchange save req).body = failurePage ∧
    (handleCallback stateTok exchange save req).closed = true ∧
    ((handleCallback stateTok exchange save req).status,
      (handleCallback stateTok exchange save req).contentType,
      (handleCallback stateTok exchange save req).body) =
      ((handleCallback stateTok (fun _ => ExchangeResult.error) save req).status,
        (handleCallback stateTok (fun _ => ExchangeResult.error) save req).contentType,
        (handleCallback stateTok (fun _ => ExchangeResult.error) save req).body) := by
  have hie : code.isEmpty = false := by
    cases hc : code.isEmpty
    · rfl
    · exact absurd ((String.isEmpty_iff code).mp hc) hne
  simp [handleCallback, hpath, hstate, hcode, strTruthy, hie, hex, hsave]

/-- C10 (witness). -/
theorem c10_save_failure_witness :
    (handleCallback "s0" (fun _ => ExchangeResult.ok (Json.obj []))
      (fun _ => SaveResult.error) ⟨"/callback", some "s0", some "c1"⟩).status = 500 ∧
    (handleCallback "s0" (fun _ => ExchangeResult.ok (Json.obj []))
      (fun _ => SaveResult.error) ⟨"/callback", some "s0", some "c1"⟩).body = failurePage ∧
    (handleCallback "s0" (fun _ => ExchangeResult.ok (Json.obj []))
      (fun _ => SaveResult.error) ⟨"/callback", some "s0", some "c1"⟩).closed = true :=
  have h := c10_save_failure "s0" "c1" (Json.obj []) _ _ _ rfl rfl rfl (by decide) rfl rfl
  ⟨h.1, h.2.1, h.2.2.1⟩

/-- C5: `loadTokens` never throws; a missing file, an empty file, and a file
whose contents fail to parse as JSON all load as the absent sentinel. -/
theorem c5_load_never_throws :
    loadTokens none = none ∧ loadTokens (some "") = none ∧
    ∀ s : String, JSON.parse s = none → loadTokens (some s) = none := by
  refine ⟨rfl, rfl, ?_⟩
  intro s hs
  simp [loadTokens, hs]

/-- C5 (witness): a file containing text that is not valid JSON loads as
absent. -/
theorem c5_load_never_throws_witness : loadTokens (some "not json") = none :=
  c5_load_never_throws.2.2 "not json" rfl

/-- C6: the save/load round-trip law — saving any credential record and loading
it back returns a record equal to the one saved. -/
theorem c6_save_load_roundtrip (tokens : Json) :
    loadTokens (saveTokens tokens) = some tokens :=
  load_after_save tokens

/-- C2: when the stored record holds a refresh token and the refresh event's
new fields omit one, the reload-merge-save performed by the `tokens` listener
persists a record that still holds the stored refresh token, with every newly
refreshed field updated to its new value. -/
theorem c2_refresh_merge_preserves (content : Option String)
    (stored newTokens : List (String × Json)) (rt : Json)
    (hload : loadTokens content = some (Json.obj stored))
    (hrt : getField "refresh_token" stored = some rt)
    (hnew : getField "refresh_token" newTokens = none) :
    loadTokens (refreshedContent content newTokens) =
      some (Json.obj (jsObjMerge stored newTokens)) ∧
    getField "refresh_token" (jsObjMerge stored newTokens) = some rt ∧
    ∀ k v, getField k newTokens = some v →
      getField k (jsObjMerge stored newTokens) = some v := by
  have hmerge : refreshMerge content newTokens = jsObjMerge stored newTokens := by
    simp [refreshMerge, hload, spreadable]
  refine ⟨?_, ?_, ?_⟩
  · rw [refreshedContent, hmerge]
    exact load_after_save _
  · simp [getField_jsObjMerge, hrt, hnew]
  · intro k v hkv
    rw [getField_jsObjMerge]
    cases hst : getField k stored <;> simp [hkv]

/-- C2 (witness). -/
theorem c2_refresh_merge_witness :
    loadTokens (refreshedContent
      (some (JSON.stringify (Json.obj
        [("access_token", Json.str "a"), ("refresh_token", Json.str "r")])))
      [("access_token", Json.str "b")]) =
        some (Json.obj (jsObjMerge
          [("access_token", Json.str "a"), ("refresh_token", Json.str "r")]
          [("access_token", Json.str "b")])) ∧
    getField "refresh_token" (jsObjMerge
      [("access_token", Json.str "a"), ("refresh_token", Json.str "r")]
      [("access_token", Json.str "b")]) = some (Json.str "r") ∧
    getField "access_token" (jsObjMerge
      [("access_token", Json.str "a"), ("refresh_token", Json.str "r")]
      [("access_token", Json.str "b")]) = some (Json.str "b") := by
  have h := c2_refresh_merge_preserves
    (some (JSON.stringify (Json.obj
      [("access_token", Json.str "a"), ("refresh_token", Json.str "r")])))
    [("access_token", Json.str "a"), ("refresh_token", Json.str "r")]
    [("access_token", Json.str "b")] (Json.str "r")
    (load_after_save _) rfl rfl
  exact ⟨h.1, h.2.1, h.2.2 "access_token" (Json.str "b") rfl⟩

/-- C7: the setup of `startAuthFlow` listens on the loopback address with port
0, derives the redirect URI from the assigned ephemeral port, renders the 32
random bytes (256 bits, at least the required 128) as a 64-character lower-case
hex state token that determines those bytes uniquely, and resolves with the
consent URL built for offline access, the full scope set, forced re-consent,
and that state token. -/
theorem c7_flow_setup (port : Nat) (bytes : List Nat) (hlen : bytes.length = 32)
    (hbytes : ∀ b ∈ bytes, b < 256) :
    (startAuthFlowSetup port bytes).bindHost = "127.0.0.1" ∧
    (startAuthFlowSetup port bytes).bindPort = 0 ∧
    (startAuthFlowSetup port bytes).redirectUri =
      "http://localhost:" ++ toString port ++ "/callback" ∧
    (startAuthFlowSetup port bytes).state.length = 64 ∧
    (∀ c ∈ (startAuthFlowSetup port bytes).state.toList, c ∈ hexAlphabet) ∧
    (∀ bytes2 : List Nat, (∀ b ∈ bytes2, b < 256) →
      bytesToHex bytes2 = (startAuthFlowSetup port bytes).state → bytes2 = bytes) ∧
    (startAuthFlowSetup port bytes).authUrl =
      generateAuthUrl (startAuthFlowSetup port bytes).redirectUri
        { access_type := "offline", scope := SCOPES, prompt := "consent",
          state := (startAuthFlowSetup port bytes).state } := by
  refine ⟨rfl, rfl, rfl, ?_, ?_, ?_, rfl⟩
  · show (bytesToHex bytes).length = 64
    show (bytesToHexChars bytes).length = 64
    rw [bytesToHexChars_length, hlen]
  · intro c hc
    exact bytesToHexChars_all_hex bytes hbytes c hc
  · intro bytes2 hb2 heq
    have hchars : bytesToHexChars bytes2 = bytesToHexChars bytes :=
      congrArg String.toList heq
    exact bytesToHexChars_inj bytes2 bytes hb2 hbytes hchars

/-- C7 (witness). -/
theorem c7_flow_setup_witness :
    (startAuthFlowSetup 8080 (List.replicate 32 0)).bindHost = "127.0.0.1" ∧
    (startAuthFlowSetup 8080 (List.replicate 32 0)).bindPort = 0 ∧
    (startAuthFlowSetup 8080 (List.replicate 32 0)).state.length = 64 := by
  have h := c7_flow_setup 8080 (List.replicate 32 0) (by simp) (by decide)
  exact ⟨h.1, h.2.1, h.2.2.2.1⟩

/-- C8: across one `startAuthFlow` invocation the server is closed at most
once; whenever it is no longer listening the idle timer is already cancelled
(so the timer can never fire after the listener is gone); and in every complete
execution — one whose event sequence includes the timer's firing point — the
listener has been closed exactly once. -/
theorem c8_close_once_timer_cancelled (stateTok : String) (evts : List FlowEvent) :
    (runFlow stateTok evts).closeCount ≤ 1 ∧
    ((runFlow stateTok evts).listening = false →
      (runFlow stateTok evts).timerActive = false) ∧
    (FlowEvent.timerFire ∈ evts → (runFlow stateTok evts).closeCount = 1) := by
  refine ⟨?_, ?_, ?_⟩
  · rcases runFlow_two_states stateTok evts with h | h <;> rw [h] <;>
      simp [initialServerState, closedState]
  · rcases runFlow_two_states stateTok evts with h | h <;> rw [h] <;>
      simp [initialServerState, closedState]
  · intro hmem
    have h := foldl_timerFire_closed stateTok evts initialServerState (Or.inl rfl) hmem
    show (runFlow stateTok evts).closeCount = 1
    rw [runFlow, h]
    rfl

/-- C8 (witness). -/
theorem c8_close_once_witness :
    (runFlow "s0" [FlowEvent.timerFire]).closeCount = 1 ∧
    (runFlow "s0" [FlowEvent.timerFire]).timerActive = false := by
  have h := c8_close_once_timer_cancelled "s0" [FlowEvent.timerFire]
  exact ⟨h.2.2 (List.Mem.head _), h.2.1 rfl⟩

end WorkspaceMcp
